import Mathlib

/-!
# es-node-keeper — shallow embedding and verification

This file embeds the core of the `es-node-keeper` watchdog (Go) in Lean 4 and
proves properties of the embedded definitions.

The repository holds near-duplicate revisions of one Go file; the embedding
follows the most recent revision (version "0.19"): its `nodeKeeper` loop has
the systemd recency re-derivation, the dry-run switch, the empty-allocation
guard and the `sleepLoop` call on every path.  Where an older revision
(version "0.10") differs in a way a claim touches (the HTTP status check of
`esQueryGet`), that older function is embedded as well under its own name.

Modelling conventions:
* Go `map[string]map[string]interface{}` registries become association lists
  `List (String × Entry)`; Go map keys are unique, captured where needed by a
  `Nodup` hypothesis on the key list.
* Every external effect of one loop iteration (HTTP fetches, `systemctl`
  invocations, `time.Now`) is an oracle supplied in a `TickEnv`; the tick
  body is a pure function of the state and the oracles.
* JSON text is modelled by its parse outcome: `none` for malformed text,
  `some v` for text denoting the JSON value `v`.  Decoding into the Go
  structs (`encoding/json` semantics: absent field keeps the zero value,
  wrong-typed field is an error) is then explicit.
* Observable actions of a tick are recorded as a list of `Event`s, each
  tagged with the service whose loop iteration produced it.
-/

namespace EsNodeKeeper

/-- The fixed sleep between ticks, in seconds (`const interval int = 30`). -/
def interval : Nat := 30

/-- One registry value: the inner Go map
`{"instance": ..., "lastRestartTimestamp": ...}` built by `localNodesToMap`. -/
structure Entry where
  instanceName : String
  lastRestartTimestamp : Int
deriving DecidableEq

/-- The registry `map[string]map[string]interface{}` keyed by service name. -/
abbrev Registry := List (String × Entry)

/-- Lookup of a service's entry (Go map read). -/
def findEntry (m : Registry) (k : String) : Option Entry :=
  (m.find? (fun p => p.1 == k)).map (·.2)

/-- The timestamp read `localNodes[service]["lastRestartTimestamp"].(int)`; `0` when the key is
absent (in the source the key is always one of the map's own keys). -/
def getTimestamp (m : Registry) (k : String) : Int :=
  ((findEntry m k).map (·.lastRestartTimestamp)).getD 0

/-- The timestamp write `localNodes[service]["lastRestartTimestamp"] = t` (Go map write: only the
entry of key `k` changes). -/
def setTimestamp (m : Registry) (k : String) (t : Int) : Registry :=
  m.map (fun p => if p.1 == k then (p.1, { p.2 with lastRestartTimestamp := t }) else p)

/-- Source `getInvalidNodes`: the services whose expected instance name is not in the
active-node set. -/
def getInvalidNodes (localNodes : Registry) (activeNodes : List String) : List String :=
  (localNodes.filter (fun p => !(activeNodes.contains p.2.instanceName))).map (·.1)

/-- Model of `strings.ToLower`: lowercase every character of the string (the values
compared against here, `"red"`/`"all"`/cluster enum strings, are ASCII). -/
def toLower (s : String) : String := ⟨s.data.map Char.toLower⟩

/-- The cluster-condition test of the restart gate (source:
`strings.ToLower(clusterStatus) != "red" && strings.ToLower(clusterRoutingAllocation) == "all"`). -/
def clusterConditionsOk (clusterStatus clusterRoutingAllocation : String) : Bool :=
  toLower clusterStatus != "red" && toLower clusterRoutingAllocation == "all"

/-- Observable actions of one tick, tagged with the service whose loop
iteration produced them. -/
inductive Event where
  | systemdQuery (service : String) (unit : String)
  | statusFetch (service : String)
  | allocationFetch (service : String)
  | restartCall (service : String) (unit : String)
deriving DecidableEq

/-- The service a tick event belongs to. -/
def Event.serviceOf : Event → String
  | .systemdQuery s _ => s
  | .statusFetch s => s
  | .allocationFetch s => s
  | .restartCall s _ => s

/-- The external world seen by one loop iteration: results of the HTTP
fetches, of the `systemctl` invocations, the clock, and the dry-run flag. -/
structure TickEnv where
  /-- Result of `getActiveNodes` this tick. -/
  activeNodes : Except String (List String)
  /-- Result of `getSystemdServiceActiveEnterTimestamp` per systemd unit. -/
  systemdTimestamp : String → Except String Int
  /-- The clock `time.Now().Unix()` as read in the given service's iteration. -/
  now : String → Int
  /-- Result of `getClusterStatus`, fetched fresh in each service's iteration. -/
  clusterStatus : String → Except String String
  /-- Result of `getClusterRoutingAllocation`, fetched fresh per service. -/
  allocation : String → Except String String
  /-- Result of `restartSystemdService` per systemd unit. -/
  restart : String → Except String Unit
  /-- The `--dry-run` flag. -/
  dryRun : Bool

/-- The recency re-derivation block at the top of a service's iteration:
on success the systemd-reported `ActiveEnterTimestamp` overwrites the stored
timestamp; on error the registry is left alone. -/
def rederiveTimestamp (env : TickEnv) (localNodes : Registry) (service : String) : Registry :=
  match env.systemdTimestamp (service ++ ".service") with
  | .ok ts => setTimestamp localNodes service ts
  | .error _ => localNodes

/-- One service's iteration of the inner `for _, service := range invalidNodes`
loop of `nodeKeeper` (version 0.19): recency re-derivation, exclusion-period
gate, fresh health and allocation fetches, empty-allocation guard, cluster
condition gate, dry-run switch, restart and conditional timestamp update. -/
def processService (env : TickEnv) (restartExclusionPeriod : Int)
    (localNodes : Registry) (service : String) : Registry × List Event :=
  let systemdService := service ++ ".service"
  let localNodes1 := rederiveTimestamp env localNodes service
  let ev0 : List Event := [.systemdQuery service systemdService]
  let now := env.now service
  if now - getTimestamp localNodes1 service > restartExclusionPeriod then
    match env.clusterStatus service with
    | .error _ => (localNodes1, ev0 ++ [.statusFetch service])
    | .ok clusterStatus =>
      match env.allocation service with
      | .error _ => (localNodes1, ev0 ++ [.statusFetch service, .allocationFetch service])
      | .ok clusterRoutingAllocation =>
        let ev1 := ev0 ++ [.statusFetch service, .allocationFetch service]
        if clusterRoutingAllocation == "" then (localNodes1, ev1)
        else if clusterConditionsOk clusterStatus clusterRoutingAllocation then
          if env.dryRun then (localNodes1, ev1)
          else
            match env.restart systemdService with
            | .ok _ => (setTimestamp localNodes1 service now, ev1 ++ [.restartCall service systemdService])
            | .error _ => (localNodes1, ev1 ++ [.restartCall service systemdService])
        else (localNodes1, ev1)
  else (localNodes1, ev0)

/-- The inner loop over the (pre-computed) invalid-service list, threading the
registry and accumulating events. -/
def processServices (env : TickEnv) (restartExclusionPeriod : Int)
    (localNodes : Registry) : List String → Registry × List Event
  | [] => (localNodes, [])
  | s :: rest =>
    let r1 := processService env restartExclusionPeriod localNodes s
    let r2 := processServices env restartExclusionPeriod r1.1 rest
    (r2.1, r1.2 ++ r2.2)

/-- One tick of `nodeKeeper` (version 0.19) without the sleep: abort on an
active-node fetch error, otherwise process every invalid service. -/
def nodeKeeperTick (env : TickEnv) (restartExclusionPeriod : Int)
    (localNodes : Registry) : Registry × List Event :=
  match env.activeNodes with
  | .error _ => (localNodes, [])
  | .ok active =>
    processServices env restartExclusionPeriod localNodes (getInvalidNodes localNodes active)

/-- One full iteration of the version-0.19 `nodeKeeper` loop: the tick body
plus the seconds slept before the next iteration begins (`sleepLoop()` is
called both on the active-node error path and at the end of the loop body). -/
def loopIteration (env : TickEnv) (restartExclusionPeriod : Int)
    (localNodes : Registry) : Registry × List Event × Nat :=
  match env.activeNodes with
  | .error _ => (localNodes, [], interval)
  | .ok active =>
    let r := processServices env restartExclusionPeriod localNodes
      (getInvalidNodes localNodes active)
    (r.1, r.2, interval)

/-! ## HTTP client layer -/

/-- The outcome of issuing one HTTP GET: either the request fails before a
response is read (connection error, timeout, body read error), or a response
with a status code and a body is obtained. -/
inductive HttpOutcome (β : Type) where
  | requestError (msg : String)
  | response (statusCode : Nat) (body : β)

/-- Source `httpGet` of versions 0.13/0.19: returns the body of any received
response; the response's status code is never inspected. -/
def httpGet {β : Type} : HttpOutcome β → Except String β
  | .requestError msg => .error msg
  | .response _ body => .ok body

/-- Source `esQueryGet` of version 0.10: an error for any status code other than 200
(the error text carries the status; abbreviated here to the code). -/
def esQueryGet {β : Type} : HttpOutcome β → Except String β
  | .requestError msg => .error msg
  | .response code body =>
    if code != 200 then .error ("HTTP response code: " ++ toString code)
    else .ok body

/-! ## JSON decoding layer -/

/-- A JSON value. -/
inductive JsonValue where
  | null
  | bool (b : Bool)
  | num (n : Int)
  | str (s : String)
  | arr (elems : List JsonValue)
  | obj (fields : List (String × JsonValue))

/-- JSON text, modelled by its parse outcome: `none` for malformed text. -/
abbrev JsonDoc := Option JsonValue

/-- Model of `encoding/json` decoding of one string field of a struct: absent or null
keeps the zero value `""`; a non-string value is a decode error. -/
def decodeStringField (fields : List (String × JsonValue)) (key : String) : Except String String :=
  match fields.lookup key with
  | none => .ok ""
  | some (.str s) => .ok s
  | some .null => .ok ""
  | some _ => .error "JSON parse failed"

/-- The `ClusterStatus` struct with its single `status` string field. -/
structure ClusterStatus where
  status : String
deriving DecidableEq

/-- Source `parseClusterStatus`: unmarshal into `ClusterStatus`.  A JSON object (or
null) decodes with `""` for a missing `status`; anything else is an error. -/
def parseClusterStatus : JsonDoc → Except String ClusterStatus
  | none => .error "JSON parse failed"
  | some (.obj fields) =>
    match decodeStringField fields "status" with
    | .ok s => .ok ⟨s⟩
    | .error e => .error e
  | some .null => .ok ⟨""⟩
  | some _ => .error "JSON parse failed"

/-- Source `getClusterStatus` (version 0.19): `httpGet` then `parseClusterStatus`,
returning the `status` field. -/
def getClusterStatus (o : HttpOutcome JsonDoc) : Except String String :=
  match httpGet o with
  | .error e => .error e
  | .ok body =>
    match parseClusterStatus body with
    | .error e => .error e
    | .ok cs => .ok cs.status

/-! ## Configuration loading and startup -/

/-- The outcome of `ioutil.ReadFile`. -/
inductive FileRead (β : Type) where
  | readError (msg : String)
  | content (data : β)

/-- One `nodes:` element of the YAML configuration. -/
structure ConfigNode where
  instanceName : String
  service : String
deriving DecidableEq

/-- YAML text, modelled by its parse outcome: `none` for text that
`yaml.Unmarshal` rejects. -/
abbrev YamlDoc := Option (List ConfigNode)

/-- Source `parseConfig` (versions 0.13/0.19): on a read error, warn and return the
zero-value node list with a nil error; on a YAML parse error, return the
error; otherwise return the parsed nodes. -/
def parseConfig : FileRead YamlDoc → Except String (List ConfigNode)
  | .readError _ => .ok []
  | .content none => .error "yaml parse failed"
  | .content (some nodes) => .ok nodes

/-- Go map insert: overwrite the entry when the key is present, append
otherwise. -/
def mapInsert (m : Registry) (k : String) (v : Entry) : Registry :=
  if m.any (fun p => p.1 == k) then
    m.map (fun p => if p.1 == k then (k, v) else p)
  else m ++ [(k, v)]

/-- Source `localNodesToMap`: build the registry, every timestamp initialised to 0. -/
def localNodesToMap (nodes : List ConfigNode) : Registry :=
  nodes.foldl (fun acc n => mapInsert acc n.service ⟨n.instanceName, 0⟩) []

/-- The startup path of `main` (version 0.19): a `parseConfig` error exits
with status 1; otherwise the watchdog starts on `localNodesToMap` of the
parsed configuration. -/
def mainStartup (cfg : FileRead YamlDoc) : Except Nat Registry :=
  match parseConfig cfg with
  | .error _ => .error 1
  | .ok nodes => .ok (localNodesToMap nodes)

/-! ## Derived tick variants and concrete fixtures -/

/-- Fold of the recency re-derivation alone over a service list: the registry
a tick would produce if the restart branch never wrote. -/
def rederiveAll (env : TickEnv) (st : Registry) : List String → Registry
  | [] => st
  | s :: rest => rederiveAll env (rederiveTimestamp env st s) rest

/-- Tick-level view of `rederiveAll`: the registry after one tick when only
re-derivation writes are applied. -/
def tickRederiveOnly (env : TickEnv) (st : Registry) : Registry :=
  match env.activeNodes with
  | .error _ => st
  | .ok active => rederiveAll env st (getInvalidNodes st active)

/-- A one-service registry whose service was never restarted. -/
def reg0 : Registry := [("svc", ⟨"inst", 0⟩)]

/-- A one-service registry with stored timestamp 100. -/
def reg100 : Registry := [("svc", ⟨"inst", 100⟩)]

/-- A two-service registry. -/
def regTwo : Registry := [("svc", ⟨"inst", 0⟩), ("oth", ⟨"inst2", 0⟩)]

/-- A tick environment in which everything succeeds and the cluster is safe:
no node is active, the recency query fails, the clock reads 1000, health is
green, allocation is "all", the restart command succeeds, dry-run is off. -/
def envBase : TickEnv :=
  { activeNodes := .ok []
    systemdTimestamp := fun _ => .error "query failed"
    now := fun _ => 1000
    clusterStatus := fun _ => .ok "green"
    allocation := fun _ => .ok "all"
    restart := fun _ => .ok ()
    dryRun := false }

/-- Variant of `envBase` with dry-run enabled. -/
def envDry : TickEnv := { envBase with dryRun := true }

/-- Variant of `envBase` with the active-node fetch failing. -/
def envDown : TickEnv := { envBase with activeNodes := .error "connection refused" }

/-- Variant of `envBase` with the restart command failing. -/
def envRestartFail : TickEnv := { envBase with restart := fun _ => .error "unit failed" }

/-- An environment whose recency re-derivation reports an activation time (50)
earlier than a stored timestamp of 100, with a clock (60) that keeps the
service inside the exclusion period afterwards. -/
def envRederivePast : TickEnv :=
  { envBase with systemdTimestamp := fun _ => .ok 50, now := fun _ => 60 }

/-- Variant of `envBase` one hundred seconds later (clock 1100), recency query failing. -/
def envLater : TickEnv := { envBase with now := fun _ => 1100 }

/-! ## Registry lemmas -/

theorem keys_setTimestamp (m : Registry) (k : String) (t : Int) :
    (setTimestamp m k t).map (·.1) = m.map (·.1) := by
  induction m with
  | nil => rfl
  | cons hd tl ih =>
    simp only [setTimestamp, List.map_cons] at ih ⊢
    rw [ih]
    by_cases h : hd.1 = k <;> simp [h]

theorem findEntry_setTimestamp_ne (m : Registry) {k k' : String} (t : Int) (h : k' ≠ k) :
    findEntry (setTimestamp m k t) k' = findEntry m k' := by
  induction m with
  | nil => rfl
  | cons hd tl ih =>
    simp only [setTimestamp, findEntry, List.map_cons] at *
    by_cases hk : hd.1 = k
    · subst hk
      rw [if_pos (by simp), List.find?_cons_of_neg _ (by simp [Ne.symm h]),
        List.find?_cons_of_neg _ (by simp [Ne.symm h])]
      exact ih
    · rw [if_neg (by simp [hk])]
      by_cases hk' : hd.1 = k'
      · rw [List.find?_cons_of_pos _ (by simp [hk']), List.find?_cons_of_pos _ (by simp [hk'])]
      · rw [List.find?_cons_of_neg _ (by simp [hk']), List.find?_cons_of_neg _ (by simp [hk'])]
        exact ih

theorem getTimestamp_setTimestamp_ne (m : Registry) {k k' : String} (t : Int) (h : k' ≠ k) :
    getTimestamp (setTimestamp m k t) k' = getTimestamp m k' := by
  simp [getTimestamp, findEntry_setTimestamp_ne m t h]

theorem getTimestamp_setTimestamp_self (m : Registry) {k : String} (t : Int)
    (h : k ∈ m.map (·.1)) : getTimestamp (setTimestamp m k t) k = t := by
  induction m with
  | nil => simp at h
  | cons hd tl ih =>
    simp only [setTimestamp, getTimestamp, findEntry, List.map_cons] at ih ⊢
    by_cases hk : hd.1 = k
    · rw [if_pos (by simp [hk]), List.find?_cons_of_pos _ (by simp [hk])]
      simp
    · rw [if_neg (by simp [hk]), List.find?_cons_of_neg _ (by simp [hk])]
      rcases List.mem_cons.mp h with h1 | h1
      · exact absurd h1.symm hk
      · exact ih h1

theorem setTimestamp_not_mem (m : Registry) {k : String} (t : Int)
    (h : k ∉ m.map (·.1)) : setTimestamp m k t = m := by
  induction m with
  | nil => rfl
  | cons hd tl ih =>
    simp only [setTimestamp, List.map_cons, List.mem_cons] at *
    push_neg at h
    rw [if_neg (by simp [Ne.symm h.1])]
    simpa [setTimestamp] using ih h.2

theorem keys_rederiveTimestamp (env : TickEnv) (m : Registry) (s : String) :
    (rederiveTimestamp env m s).map (·.1) = m.map (·.1) := by
  unfold rederiveTimestamp
  split
  · exact keys_setTimestamp ..
  · rfl

theorem findEntry_rederiveTimestamp_ne (env : TickEnv) (m : Registry) {s s' : String}
    (h : s' ≠ s) : findEntry (rederiveTimestamp env m s) s' = findEntry m s' := by
  unfold rederiveTimestamp
  split
  · exact findEntry_setTimestamp_ne m _ h
  · rfl

theorem getTimestamp_rederiveTimestamp_ne (env : TickEnv) (m : Registry) {s s' : String}
    (h : s' ≠ s) : getTimestamp (rederiveTimestamp env m s) s' = getTimestamp m s' := by
  simp [getTimestamp, findEntry_rederiveTimestamp_ne env m h]

/-! ## processService characterization lemmas -/

theorem processService_events_serviceOf {env : TickEnv} {p : Int} {st : Registry} {s : String} :
    ∀ ev ∈ (processService env p st s).2, ev.serviceOf = s := by
  intro ev hev
  simp only [processService] at hev
  split at hev
  · cases hcs : env.clusterStatus s with
    | error e =>
      simp only [hcs] at hev
      simp at hev
      rcases hev with rfl | rfl <;> rfl
    | ok cs =>
      simp only [hcs] at hev
      cases hal : env.allocation s with
      | error e =>
        simp only [hal] at hev
        simp at hev
        rcases hev with rfl | rfl | rfl <;> rfl
      | ok alloc =>
        simp only [hal] at hev
        split at hev
        · simp at hev
          rcases hev with rfl | rfl | rfl <;> rfl
        · split at hev
          · split at hev
            · simp at hev
              rcases hev with rfl | rfl | rfl <;> rfl
            · split at hev <;>
                · simp at hev
                  rcases hev with rfl | rfl | rfl | rfl <;> rfl
          · simp at hev
            rcases hev with rfl | rfl | rfl <;> rfl
  · simp at hev
    subst hev
    rfl

theorem processService_state_cases (env : TickEnv) (p : Int) (st : Registry) (s : String) :
    (processService env p st s).1 = rederiveTimestamp env st s ∨
      ((processService env p st s).1
          = setTimestamp (rederiveTimestamp env st s) s (env.now s)
        ∧ env.now s - getTimestamp (rederiveTimestamp env st s) s > p) := by
  simp only [processService]
  split
  case isFalse hguard => simp
  case isTrue hguard =>
    cases hcs : env.clusterStatus s with
    | error e => simp [hcs]
    | ok cs =>
      simp only [hcs]
      cases hal : env.allocation s with
      | error e => simp [hal]
      | ok alloc =>
        simp only [hal]
        split
        · simp
        · split
          · split
            · simp
            · split <;> simp [hguard]
          · simp

theorem keys_processService (env : TickEnv) (p : Int) (st : Registry) (s : String) :
    ((processService env p st s).1).map (·.1) = st.map (·.1) := by
  rcases processService_state_cases env p st s with h | ⟨h, _⟩ <;> rw [h]
  · exact keys_rederiveTimestamp ..
  · rw [keys_setTimestamp, keys_rederiveTimestamp]

theorem getTimestamp_processService_ne (env : TickEnv) (p : Int) (st : Registry)
    {s s' : String} (h : s' ≠ s) :
    getTimestamp ((processService env p st s).1) s' = getTimestamp st s' := by
  rcases processService_state_cases env p st s with hc | ⟨hc, _⟩ <;> rw [hc]
  · exact getTimestamp_rederiveTimestamp_ne env st h
  · rw [getTimestamp_setTimestamp_ne _ _ h]
    exact getTimestamp_rederiveTimestamp_ne env st h

theorem findEntry_processService_ne (env : TickEnv) (p : Int) (st : Registry)
    {s s' : String} (h : s' ≠ s) :
    findEntry ((processService env p st s).1) s' = findEntry st s' := by
  rcases processService_state_cases env p st s with hc | ⟨hc, _⟩ <;> rw [hc]
  · exact findEntry_rederiveTimestamp_ne env st h
  · rw [findEntry_setTimestamp_ne _ _ h]
    exact findEntry_rederiveTimestamp_ne env st h

theorem processService_restartCall_inv {env : TickEnv} {p : Int} {st : Registry} {s a u : String}
    (h : Event.restartCall a u ∈ (processService env p st s).2) :
    a = s ∧ u = s ++ ".service" ∧ env.dryRun = false ∧
      env.now s - getTimestamp (rederiveTimestamp env st s) s > p ∧
      ∃ cs alloc, env.clusterStatus s = .ok cs ∧ env.allocation s = .ok alloc ∧
        alloc ≠ "" ∧ clusterConditionsOk cs alloc = true := by
  simp only [processService] at h
  split at h
  case isTrue hguard =>
    cases hcs : env.clusterStatus s with
    | error e => simp [hcs] at h
    | ok cs =>
      simp only [hcs] at h
      cases hal : env.allocation s with
      | error e => simp [hal] at h
      | ok alloc =>
        simp only [hal] at h
        split at h
        case isTrue hempty => simp at h
        case isFalse hempty =>
          split at h
          case isTrue hcond =>
            split at h
            case isTrue hdry => simp at h
            case isFalse hdry =>
              have hrc : a = s ∧ u = s ++ ".service" := by
                split at h <;> simp at h <;> exact h
              exact ⟨hrc.1, hrc.2, Bool.eq_false_iff.mpr hdry,
                hguard, cs, alloc, rfl, rfl, by simpa using hempty, hcond⟩
          case isFalse hcond => simp at h
  case isFalse hguard => simp at h

theorem processService_suppressed {env : TickEnv} {p : Int} {st : Registry} {s : String}
    (h : env.now s - getTimestamp (rederiveTimestamp env st s) s ≤ p) :
    processService env p st s
      = (rederiveTimestamp env st s, [.systemdQuery s (s ++ ".service")]) := by
  have hng : ¬ (env.now s - getTimestamp (rederiveTimestamp env st s) s > p) := by omega
  simp [processService, hng]

theorem processService_conditions_met {env : TickEnv} {p : Int} {st : Registry}
    {s : String} {cs alloc : String}
    (hguard : env.now s - getTimestamp (rederiveTimestamp env st s) s > p)
    (hcs : env.clusterStatus s = .ok cs) (hal : env.allocation s = .ok alloc)
    (hne : alloc ≠ "") (hcond : clusterConditionsOk cs alloc = true)
    (hdry : env.dryRun = false) :
    processService env p st s =
      match env.restart (s ++ ".service") with
      | .ok _ => (setTimestamp (rederiveTimestamp env st s) s (env.now s),
          [.systemdQuery s (s ++ ".service"), .statusFetch s, .allocationFetch s,
            .restartCall s (s ++ ".service")])
      | .error _ => (rederiveTimestamp env st s,
          [.systemdQuery s (s ++ ".service"), .statusFetch s, .allocationFetch s,
            .restartCall s (s ++ ".service")]) := by
  cases hr : env.restart (s ++ ".service") <;>
    simp [processService, hguard, hcs, hal, hne, hcond, hdry, hr]

theorem processService_dryRun_state {env : TickEnv} {p : Int} {st : Registry} {s : String}
    (h : env.dryRun = true) :
    (processService env p st s).1 = rederiveTimestamp env st s := by
  simp only [processService, h]
  split
  · cases env.clusterStatus s with
    | error e => simp
    | ok cs =>
      cases env.allocation s with
      | error e => simp
      | ok alloc =>
        split
        · simp
        · split <;> simp
  · simp

theorem processService_dryRun_no_restart {env : TickEnv} {p : Int} {st : Registry} {s : String}
    (h : env.dryRun = true) :
    ∀ a u, Event.restartCall a u ∉ (processService env p st s).2 := by
  intro a u hmem
  obtain ⟨_, _, hdry, _⟩ := processService_restartCall_inv hmem
  rw [h] at hdry
  exact Bool.true_eq_false.mp hdry

/-! ## processServices (inner loop) lemmas -/

theorem processServices_restartCall_inv {env : TickEnv} {p : Int} {l : List String}
    {st : Registry} {a u : String}
    (h : Event.restartCall a u ∈ (processServices env p st l).2) :
    a ∈ l ∧ u = a ++ ".service" ∧ env.dryRun = false ∧
      ∃ cs alloc, env.clusterStatus a = .ok cs ∧ env.allocation a = .ok alloc ∧
        alloc ≠ "" ∧ clusterConditionsOk cs alloc = true := by
  induction l generalizing st with
  | nil => simp [processServices] at h
  | cons s rest ih =>
    simp only [processServices] at h
    rcases List.mem_append.mp h with h1 | h2
    · obtain ⟨rfl, hu, hdry, _, hrest⟩ := processService_restartCall_inv h1
      exact ⟨List.mem_cons_self .., hu, hdry, hrest⟩
    · obtain ⟨hmem, hrest⟩ := ih h2
      exact ⟨List.mem_cons_of_mem _ hmem, hrest⟩

theorem processServices_serviceOf {env : TickEnv} {p : Int} {l : List String} {st : Registry} :
    ∀ ev ∈ (processServices env p st l).2, ev.serviceOf ∈ l := by
  induction l generalizing st with
  | nil => simp [processServices]
  | cons s rest ih =>
    intro ev hev
    simp only [processServices] at hev
    rcases List.mem_append.mp hev with h1 | h2
    · rw [processService_events_serviceOf ev h1]
      exact List.mem_cons_self ..
    · exact List.mem_cons_of_mem _ (ih _ h2)

theorem keys_processServices (env : TickEnv) (p : Int) (l : List String) (st : Registry) :
    ((processServices env p st l).1).map (·.1) = st.map (·.1) := by
  induction l generalizing st with
  | nil => rfl
  | cons s rest ih =>
    simp only [processServices]
    rw [ih, keys_processService]

theorem getTimestamp_processServices_not_mem {env : TickEnv} {p : Int} {l : List String}
    {st : Registry} {s' : String} (h : s' ∉ l) :
    getTimestamp ((processServices env p st l).1) s' = getTimestamp st s' := by
  induction l generalizing st with
  | nil => rfl
  | cons s rest ih =>
    simp only [processServices]
    rw [ih (fun hm => h (List.mem_cons_of_mem _ hm))]
    exact getTimestamp_processService_ne env p st (fun he => h (he ▸ List.mem_cons_self ..))

theorem processServices_dryRun_state {env : TickEnv} {p : Int} (h : env.dryRun = true) :
    ∀ (l : List String) (st : Registry),
      (processServices env p st l).1 = rederiveAll env st l := by
  intro l
  induction l with
  | nil => intro st; rfl
  | cons s rest ih =>
    intro st
    simp only [processServices, rederiveAll]
    rw [processService_dryRun_state h]
    exact ih _

/-! ## nodeKeeperTick lemmas -/

theorem nodeKeeperTick_error {env : TickEnv} {p : Int} {st : Registry} {e : String}
    (h : env.activeNodes = .error e) : nodeKeeperTick env p st = (st, []) := by
  simp [nodeKeeperTick, h]

theorem nodeKeeperTick_ok {env : TickEnv} {p : Int} {st : Registry} {active : List String}
    (h : env.activeNodes = .ok active) :
    nodeKeeperTick env p st = processServices env p st (getInvalidNodes st active) := by
  simp [nodeKeeperTick, h]

/-! ## Monotonicity lemmas -/

theorem getTimestamp_rederiveTimestamp_self_mono {env : TickEnv} {st : Registry} {s : String}
    (hred : ∀ ts, env.systemdTimestamp (s ++ ".service") = .ok ts → getTimestamp st s ≤ ts) :
    getTimestamp st s ≤ getTimestamp (rederiveTimestamp env st s) s := by
  unfold rederiveTimestamp
  cases hsys : env.systemdTimestamp (s ++ ".service") with
  | error e => exact le_refl _
  | ok ts =>
    show getTimestamp st s ≤ getTimestamp (setTimestamp st s ts) s
    by_cases hm : s ∈ st.map (·.1)
    · rw [getTimestamp_setTimestamp_self st ts hm]
      exact hred ts hsys
    · rw [setTimestamp_not_mem st ts hm]

theorem getTimestamp_processService_self_mono {env : TickEnv} {p : Int} {st : Registry}
    {s : String} (hp : 0 ≤ p)
    (hred : ∀ ts, env.systemdTimestamp (s ++ ".service") = .ok ts → getTimestamp st s ≤ ts) :
    getTimestamp st s ≤ getTimestamp ((processService env p st s).1) s := by
  have h1 : getTimestamp st s ≤ getTimestamp (rederiveTimestamp env st s) s :=
    getTimestamp_rederiveTimestamp_self_mono hred
  rcases processService_state_cases env p st s with hc | ⟨hc, hguard⟩ <;> rw [hc]
  · exact h1
  · by_cases hm : s ∈ (rederiveTimestamp env st s).map (·.1)
    · rw [getTimestamp_setTimestamp_self _ _ hm]
      omega
    · rw [setTimestamp_not_mem _ _ hm]
      exact h1

theorem getTimestamp_processServices_mono {env : TickEnv} {p : Int} {l : List String}
    {st : Registry} (hp : 0 ≤ p) (hl : l.Nodup)
    (hred : ∀ s ∈ l, ∀ ts, env.systemdTimestamp (s ++ ".service") = .ok ts →
      getTimestamp st s ≤ ts) :
    ∀ s', getTimestamp st s' ≤ getTimestamp ((processServices env p st l).1) s' := by
  induction l generalizing st with
  | nil => intro s'; exact le_refl _
  | cons s rest ih =>
    intro s'
    simp only [processServices]
    have hstep : ∀ t, getTimestamp st t ≤ getTimestamp ((processService env p st s).1) t := by
      intro t
      by_cases ht : t = s
      · subst ht
        exact getTimestamp_processService_self_mono hp (hred t (List.mem_cons_self ..))
      · rw [getTimestamp_processService_ne env p st ht]
    have hrest : ∀ t ∈ rest, ∀ ts, env.systemdTimestamp (t ++ ".service") = .ok ts →
        getTimestamp ((processService env p st s).1) t ≤ ts := by
      intro t htm ts hts
      have htne : t ≠ s := by
        rintro rfl
        exact (List.nodup_cons.mp hl).1 htm
      rw [getTimestamp_processService_ne env p st htne]
      exact hred t (List.mem_cons_of_mem _ htm) ts hts
    exact le_trans (hstep s') (ih (List.nodup_cons.mp hl).2 hrest s')

/-! ## getInvalidNodes lemmas -/

theorem getInvalidNodes_sublist_keys (st : Registry) (active : List String) :
    List.Sublist (getInvalidNodes st active) (st.map (·.1)) := by
  unfold getInvalidNodes
  exact List.Sublist.map _ (List.filter_sublist st)

theorem mem_getInvalidNodes {st : Registry} {active : List String} {s : String} :
    s ∈ getInvalidNodes st active ↔ ∃ e, (s, e) ∈ st ∧ e.instanceName ∉ active := by
  simp only [getInvalidNodes, List.mem_map, List.mem_filter]
  constructor
  · rintro ⟨⟨s', e⟩, ⟨hmem, hpred⟩, rfl⟩
    refine ⟨e, hmem, ?_⟩
    simpa [List.elem_iff] using hpred
  · rintro ⟨e, hmem, hpred⟩
    refine ⟨(s, e), ⟨hmem, ?_⟩, rfl⟩
    simpa [List.elem_iff] using hpred

theorem findEntry_eq_some_iff {st : Registry} {s : String} {e : Entry}
    (hkeys : (st.map (·.1)).Nodup) :
    findEntry st s = some e ↔ (s, e) ∈ st := by
  induction st with
  | nil => simp [findEntry]
  | cons hd tl ih =>
    rw [List.map_cons, List.nodup_cons] at hkeys
    by_cases hk : hd.1 = s
    · constructor
      · intro h
        rw [findEntry, List.find?_cons_of_pos _ (by simp [hk])] at h
        simp only [Option.map_some', Option.some.injEq] at h
        subst h
        exact List.mem_cons.mpr (Or.inl (by rw [← hk]))
      · intro h
        rcases List.mem_cons.mp h with h1 | h1
        · rw [findEntry, List.find?_cons_of_pos _ (by simp [hk])]
          simp [← h1]
        · exfalso
          apply hkeys.1
          rw [hk]
          exact List.mem_map.mpr ⟨(s, e), h1, rfl⟩
    · have hfe : findEntry (hd :: tl) s = findEntry tl s := by
        rw [findEntry, List.find?_cons_of_neg _ (by simp [hk]), findEntry]
      rw [hfe, ih hkeys.2]
      constructor
      · exact fun h1 => List.mem_cons.mpr (Or.inr h1)
      · intro h1
        rcases List.mem_cons.mp h1 with h2 | h2
        · exact absurd (by rw [← h2]) hk
        · exact h2

theorem mem_getInvalidNodes_iff {st : Registry} {active : List String} {s : String}
    (hkeys : (st.map (·.1)).Nodup) :
    s ∈ getInvalidNodes st active ↔
      ∃ e, findEntry st s = some e ∧ e.instanceName ∉ active := by
  rw [mem_getInvalidNodes]
  constructor
  · rintro ⟨e, hmem, hact⟩
    exact ⟨e, (findEntry_eq_some_iff hkeys).mpr hmem, hact⟩
  · rintro ⟨e, hfe, hact⟩
    exact ⟨e, (findEntry_eq_some_iff hkeys).mp hfe, hact⟩

/-! ## Claim theorems -/

/-- C1: For every tick and every invalid service that passes the
exclusion-period check, a restart is invoked only when the fetched cluster
health, compared case-insensitively, is not "red" and the fetched allocation
policy, lowercased, equals "all"; every other combination of health and
allocation values, including the empty allocation-policy string, results in
no restart call for that service that tick. -/
theorem restart_requires_cluster_safe (env : TickEnv) (p : Int) (st : Registry)
    (a u : String) (h : Event.restartCall a u ∈ (nodeKeeperTick env p st).2) :
    u = a ++ ".service" ∧
      ∃ cs alloc, env.clusterStatus a = .ok cs ∧ env.allocation a = .ok alloc ∧
        toLower cs ≠ "red" ∧ toLower alloc = "all" ∧ alloc ≠ "" := by
  cases hact : env.activeNodes with
  | error e =>
    rw [nodeKeeperTick_error hact] at h
    simp at h
  | ok active =>
    rw [nodeKeeperTick_ok hact] at h
    obtain ⟨hmem, hu, hdry, cs, alloc, hcs, hal, hne, hcond⟩ := processServices_restartCall_inv h
    have hcond' : toLower cs ≠ "red" ∧ toLower alloc = "all" := by
      simpa [clusterConditionsOk] using hcond
    exact ⟨hu, cs, alloc, hcs, hal, hcond'.1, hcond'.2, hne⟩

/-- Witness for C1: with a safe green/"all" cluster and service "svc" missing
from the active set, the tick does emit a restart call, and the theorem
applies to it. -/
theorem restart_requires_cluster_safe_witness :
    (Event.restartCall "svc" "svc.service" ∈ (nodeKeeperTick envBase 600 reg0).2) ∧
      "svc.service" = "svc" ++ ".service" :=
  ⟨by decide, (restart_requires_cluster_safe envBase 600 reg0 "svc" "svc.service" (by decide)).1⟩

/-- C2: For every invalid service whose elapsed time since its stored
last-restart timestamp is at most the exclusion period, the service's
iteration performs only the recency re-derivation: no health fetch, no
allocation fetch, and no restart call, for every value of those oracles. -/
theorem exclusion_period_suppresses (env : TickEnv) (p : Int) (st : Registry) (s : String)
    (h : env.now s - getTimestamp (rederiveTimestamp env st s) s ≤ p) :
    processService env p st s
        = (rederiveTimestamp env st s, [Event.systemdQuery s (s ++ ".service")]) ∧
      (∀ a u, Event.restartCall a u ∉ (processService env p st s).2) ∧
      (∀ a, Event.statusFetch a ∉ (processService env p st s).2) ∧
      (∀ a, Event.allocationFetch a ∉ (processService env p st s).2) := by
  have heq := processService_suppressed h
  refine ⟨heq, fun a u => ?_, fun a => ?_, fun a => ?_⟩ <;> rw [heq] <;> simp

/-- Witness for C2: service "svc" with stored timestamp 0 at clock 1000 and
exclusion period 2000 is suppressed. -/
theorem exclusion_period_suppresses_witness :
    (envBase.now "svc" - getTimestamp (rederiveTimestamp envBase reg0 "svc") "svc" ≤ 2000) ∧
      processService envBase 2000 reg0 "svc"
        = (rederiveTimestamp envBase reg0 "svc", [Event.systemdQuery "svc" ("svc" ++ ".service")]) :=
  ⟨by decide, (exclusion_period_suppresses envBase 2000 reg0 "svc" (by decide)).1⟩

/-- Counterexample to C3: the recency re-derivation writes the host-reported
value unconditionally.  With stored timestamp 100 and a host-reported
activation time of 50, the tick leaves the strictly smaller value 50, so the
stored timestamp is not monotonic non-decreasing. -/
theorem rederivation_can_decrease_timestamp :
    getTimestamp reg100 "svc" = 100 ∧
      getTimestamp ((nodeKeeperTick envRederivePast 600 reg100).1) "svc" = 50 ∧
      ((50 : Int) < 100) :=
  ⟨by decide, by decide, by decide⟩

/-- C3 (amended): per tick, every write to a stored last-restart timestamp
leaves a value greater than or equal to the previous one, provided the
exclusion period is non-negative and every successful recency re-derivation
reports a value not smaller than the service's stored timestamp; the
restart-success write to `now` needs no such assumption, but the
re-derivation write is an unconditional overwrite and can decrease the value
when the host under-reports. -/
theorem timestamps_monotone_of_faithful_rederivation (env : TickEnv) (p : Int)
    (st : Registry) (hp : 0 ≤ p) (hkeys : (st.map (·.1)).Nodup)
    (hred : ∀ s ∈ st.map (·.1), ∀ ts,
      env.systemdTimestamp (s ++ ".service") = .ok ts → getTimestamp st s ≤ ts) :
    ∀ s', getTimestamp st s' ≤ getTimestamp ((nodeKeeperTick env p st).1) s' := by
  intro s'
  cases hact : env.activeNodes with
  | error e =>
    rw [nodeKeeperTick_error hact]
  | ok active =>
    rw [nodeKeeperTick_ok hact]
    refine getTimestamp_processServices_mono hp ?_ ?_ s'
    · exact (getInvalidNodes_sublist_keys st active).nodup hkeys
    · intro s hs ts hts
      exact hred s ((getInvalidNodes_sublist_keys st active).subset hs) ts hts

/-- Witness for the amended C3: with the recency query failing and a
successful restart, the stored timestamp moves from 100 up to 1000. -/
theorem timestamps_monotone_of_faithful_rederivation_witness :
    ((0 : Int) ≤ 600) ∧ ((reg100.map (fun x => x.1)).Nodup) ∧
      getTimestamp reg100 "svc" ≤ getTimestamp ((nodeKeeperTick envBase 600 reg100).1) "svc" :=
  ⟨by decide, by decide,
    timestamps_monotone_of_faithful_rederivation envBase 600 reg100 (by decide) (by decide)
      (fun s _ ts hts => by simp [envBase] at hts) "svc"⟩

/-- C4: For every tick in which the active-instance fetch returns an error,
no service is evaluated (the registry is untouched and no event of any kind
is emitted), and the next tick begins only after the fixed 30-second sleep
interval. -/
theorem tick_aborts_on_active_nodes_error (env : TickEnv) (p : Int) (st : Registry)
    (e : String) (h : env.activeNodes = .error e) :
    loopIteration env p st = (st, [], interval) ∧ interval = 30 :=
  ⟨by simp [loopIteration, h], rfl⟩

/-- Witness for C4 with a concrete failing environment. -/
theorem tick_aborts_on_active_nodes_error_witness :
    (envDown.activeNodes = .error "connection refused") ∧
      loopIteration envDown 600 reg0 = (reg0, [], interval) :=
  ⟨rfl, (tick_aborts_on_active_nodes_error envDown 600 reg0 "connection refused" rfl).1⟩

/-- Counterexample to C5: the current `httpGet` never inspects the HTTP
status code, so a 500 response's body is returned without error, decoded,
and used as a valid cluster-health result. -/
theorem non2xx_body_decoded_as_valid :
    httpGet (HttpOutcome.response 500 (some (JsonValue.obj [("status", JsonValue.str "red")])))
        = .ok (some (JsonValue.obj [("status", JsonValue.str "red")])) ∧
      getClusterStatus
          (HttpOutcome.response 500 (some (JsonValue.obj [("status", JsonValue.str "red")])))
        = .ok "red" :=
  ⟨rfl, rfl⟩

/-- C5 (amended): non-2xx handling differs by revision.  The legacy
`esQueryGet` (version 0.10) returns an error for any status code other than
200, so such a body is never decoded; the current `httpGet` (versions
0.13/0.19) ignores the status code entirely and returns any received
response's body as a valid result, erring only on request-level transport
failures. -/
theorem http_client_status_handling :
    (∀ (code : Nat) (body : JsonDoc), httpGet (HttpOutcome.response code body) = .ok body) ∧
      (∀ msg : String,
        httpGet (HttpOutcome.requestError msg : HttpOutcome JsonDoc) = .error msg) ∧
      (∀ (code : Nat) (body : JsonDoc), code ≠ 200 →
        esQueryGet (HttpOutcome.response code body)
          = .error ("HTTP response code: " ++ toString code)) ∧
      (∀ body : JsonDoc, esQueryGet (HttpOutcome.response 200 body) = .ok body) ∧
      (∀ msg : String,
        esQueryGet (HttpOutcome.requestError msg : HttpOutcome JsonDoc) = .error msg) := by
  refine ⟨fun code body => rfl, fun msg => rfl, fun code body hc => ?_, fun body => rfl,
    fun msg => rfl⟩
  simp [esQueryGet, hc]

/-- Witness for the amended C5: a 500 response makes the legacy client
error. -/
theorem http_client_status_handling_witness :
    ((500 : Nat) ≠ 200) ∧
      esQueryGet (HttpOutcome.response 500 (none : JsonDoc))
        = .error ("HTTP response code: " ++ toString 500) :=
  ⟨by decide, http_client_status_handling.2.2.1 500 none (by decide)⟩

/-- C6: For every restart attempt (restart call emitted for a registered
service): on command success the stored timestamp becomes the tick's `now`;
on command failure the registry is exactly the re-derivation state, so the
timestamp is unchanged from the value eligibility was measured against; no
other service's entry is touched by the iteration; and after a success, a
later tick whose recency query does not report a time before the restart and
whose clock is within the exclusion period of that `now` is suppressed for
that service. -/
theorem restart_outcome_determines_timestamp (env : TickEnv) (p : Int) (st : Registry)
    (s u : String) (hmem : s ∈ st.map (·.1))
    (hcall : Event.restartCall s u ∈ (processService env p st s).2) :
    (env.restart (s ++ ".service") = .ok () →
      (processService env p st s).1
          = setTimestamp (rederiveTimestamp env st s) s (env.now s) ∧
        getTimestamp ((processService env p st s).1) s = env.now s) ∧
      (∀ e, env.restart (s ++ ".service") = .error e →
        (processService env p st s).1 = rederiveTimestamp env st s) ∧
      (∀ s', s' ≠ s →
        findEntry ((processService env p st s).1) s' = findEntry st s') ∧
      (∀ env2 : TickEnv, env.restart (s ++ ".service") = .ok () →
        (∀ ts2, env2.systemdTimestamp (s ++ ".service") = .ok ts2 → env.now s ≤ ts2) →
        env2.now s - env.now s ≤ p →
        ∀ a u', Event.restartCall a u' ∉ (processService env2 p ((processService env p st s).1) s).2) := by
  obtain ⟨-, hu, hdry, hguard, cs, alloc, hcs, hal, hne, hcond⟩ :=
    processService_restartCall_inv hcall
  have hchar := processService_conditions_met hguard hcs hal hne hcond hdry
  have hmem1 : s ∈ (rederiveTimestamp env st s).map (·.1) := by
    rw [keys_rederiveTimestamp]
    exact hmem
  have hok_state : env.restart (s ++ ".service") = .ok () →
      (processService env p st s).1
        = setTimestamp (rederiveTimestamp env st s) s (env.now s) := by
    intro hok
    rw [hchar, hok]
  have hok_ts : env.restart (s ++ ".service") = .ok () →
      getTimestamp ((processService env p st s).1) s = env.now s := by
    intro hok
    rw [hok_state hok]
    exact getTimestamp_setTimestamp_self _ _ hmem1
  refine ⟨fun hok => ⟨hok_state hok, hok_ts hok⟩, ?_, ?_, ?_⟩
  · intro e he
    rw [hchar, he]
  · intro s' hs'
    exact findEntry_processService_ne env p st hs'
  · intro env2 hok hsys2 hlate a u' hmem2
    have hts2 : env2.now s
        - getTimestamp (rederiveTimestamp env2 ((processService env p st s).1) s) s ≤ p := by
      unfold rederiveTimestamp
      cases he2 : env2.systemdTimestamp (s ++ ".service") with
      | error e2 =>
        show env2.now s - getTimestamp ((processService env p st s).1) s ≤ p
        rw [hok_ts hok]
        exact hlate
      | ok ts2 =>
        show env2.now s
          - getTimestamp (setTimestamp ((processService env p st s).1) s ts2) s ≤ p
        have hmem2' : s ∈ ((processService env p st s).1).map (·.1) := by
          rw [keys_processService]
          exact hmem
        rw [getTimestamp_setTimestamp_self _ _ hmem2']
        have := hsys2 ts2 he2
        omega
    rw [processService_suppressed hts2] at hmem2
    simp at hmem2

/-- Witness for C6: the successful restart at clock 1000 stores 1000. -/
theorem restart_outcome_determines_timestamp_witness :
    ("svc" ∈ reg0.map (fun x => x.1)) ∧
      (Event.restartCall "svc" ("svc" ++ ".service") ∈ (processService envBase 600 reg0 "svc").2) ∧
      getTimestamp ((processService envBase 600 reg0 "svc").1) "svc" = envBase.now "svc" :=
  ⟨by decide, by decide,
    ((restart_outcome_determines_timestamp envBase 600 reg0 "svc" ("svc" ++ ".service")
        (by decide) (by decide)).1 rfl).2⟩

/-- C7: With dry-run enabled, a tick never emits a restart call and the
registry after the tick equals the registry with only the recency
re-derivation writes applied — the restart branch updates no timestamp. -/
theorem dry_run_no_restart_no_update (env : TickEnv) (p : Int) (st : Registry)
    (h : env.dryRun = true) :
    (nodeKeeperTick env p st).1 = tickRederiveOnly env st ∧
      ∀ a u, Event.restartCall a u ∉ (nodeKeeperTick env p st).2 := by
  constructor
  · cases hact : env.activeNodes with
    | error e =>
      rw [nodeKeeperTick_error hact]
      simp [tickRederiveOnly, hact]
    | ok active =>
      rw [nodeKeeperTick_ok hact]
      simp only [tickRederiveOnly, hact]
      exact processServices_dryRun_state h _ _
  · intro a u hmem2
    cases hact : env.activeNodes with
    | error e =>
      rw [nodeKeeperTick_error hact] at hmem2
      simp at hmem2
    | ok active =>
      rw [nodeKeeperTick_ok hact] at hmem2
      obtain ⟨-, -, hdry, -⟩ := processServices_restartCall_inv hmem2
      rw [h] at hdry
      exact absurd hdry (by decide)

/-- Witness for C7: the dry-run environment would otherwise restart "svc". -/
theorem dry_run_no_restart_no_update_witness :
    (envDry.dryRun = true) ∧
      (nodeKeeperTick envDry 600 reg0).1 = tickRederiveOnly envDry reg0 ∧
      Event.restartCall "svc" "svc.service" ∉ (nodeKeeperTick envDry 600 reg0).2 :=
  ⟨rfl, (dry_run_no_restart_no_update envDry 600 reg0 rfl).1,
    (dry_run_no_restart_no_update envDry 600 reg0 rfl).2 "svc" "svc.service"⟩

/-- C8: For every registry (with unique service keys) and active-instance
set, a service is in the computed invalid list iff its expected instance
name is absent from the set; a service whose instance is present never
appears there and no event of the tick belongs to it. -/
theorem invalid_nodes_iff_absent (st : Registry) (active : List String) (s : String)
    (hkeys : (st.map (·.1)).Nodup) :
    (s ∈ getInvalidNodes st active ↔
        ∃ e, findEntry st s = some e ∧ e.instanceName ∉ active) ∧
      ∀ e, findEntry st s = some e → e.instanceName ∈ active →
        s ∉ getInvalidNodes st active ∧
          ∀ env : TickEnv, ∀ p : Int, env.activeNodes = .ok active →
            ∀ ev ∈ (nodeKeeperTick env p st).2, ev.serviceOf ≠ s := by
  refine ⟨@mem_getInvalidNodes_iff st active s hkeys, ?_⟩
  intro e hfe hin
  have hnot : s ∉ getInvalidNodes st active := by
    intro hmem3
    obtain ⟨e', hfe', hact'⟩ := (@mem_getInvalidNodes_iff st active s hkeys).mp hmem3
    rw [hfe] at hfe'
    injection hfe' with h'
    exact hact' (h' ▸ hin)
  refine ⟨hnot, ?_⟩
  intro env p hact ev hev heq
  apply hnot
  rw [nodeKeeperTick_ok hact] at hev
  have hsvc := processServices_serviceOf ev hev
  rw [heq] at hsvc
  exact hsvc

/-- Witness for C8: in a two-service registry with only "inst2" active,
"svc" (expecting "inst") is invalid and "oth" (expecting "inst2") is not. -/
theorem invalid_nodes_iff_absent_witness :
    ((regTwo.map (fun x => x.1)).Nodup) ∧
      ("svc" ∈ getInvalidNodes regTwo ["inst2"]) ∧
      ("oth" ∉ getInvalidNodes regTwo ["inst2"]) :=
  ⟨by decide,
    (invalid_nodes_iff_absent regTwo ["inst2"] "svc" (by decide)).1.mpr
      ⟨⟨"inst", 0⟩, by decide, by decide⟩,
    ((invalid_nodes_iff_absent regTwo ["inst2"] "oth" (by decide)).2 ⟨"inst2", 0⟩
      (by decide) (by decide)).1⟩

/-- C9: configuration loading resolves fatal-versus-empty by error kind: a
file read error yields an empty node list with no error, and startup
continues with an empty registry; a YAML parse error is returned and makes
`main` exit with status 1. -/
theorem config_load_policy :
    (∀ msg : String, parseConfig (FileRead.readError msg) = .ok [] ∧
        mainStartup (FileRead.readError msg) = .ok []) ∧
      parseConfig (FileRead.content (none : YamlDoc)) = .error "yaml parse failed" ∧
      mainStartup (FileRead.content (none : YamlDoc)) = .error 1 :=
  ⟨fun _ => ⟨rfl, rfl⟩, rfl, rfl⟩

/-- C10: a 2xx health response whose JSON object lacks a `status` field
decodes to the empty status string; the empty string passes the
"not red" side of the gate, and with the empty-allocation guard included the
whole per-service gate collapses to the allocation check alone. -/
theorem empty_health_passes_gate :
    getClusterStatus (HttpOutcome.response 200 (some (JsonValue.obj []))) = .ok "" ∧
      (toLower "" != "red") = true ∧
      (∀ alloc : String, clusterConditionsOk "" alloc = (toLower alloc == "all")) ∧
      (∀ alloc : String,
        (!(alloc == "") && clusterConditionsOk "" alloc) = (toLower alloc == "all")) := by
  have h0 : (toLower "" != "red") = true := by decide
  refine ⟨rfl, h0, fun alloc => ?_, fun alloc => ?_⟩
  · simp [clusterConditionsOk, h0]
  · by_cases h : alloc = ""
    · subst h
      decide
    · simp [clusterConditionsOk, h0, h]

end EsNodeKeeper
